import Mathlib

/-!
Verification of the PDF-QNA-BOT backend against its design specification.

The Python sources under backend/app are shallowly embedded: Python strings
become Lean `String`s (manipulated through their underlying `List Char`),
fallible code returns `Except`, and the mutable database/file-system state is
passed explicitly through a `ServerState` record.  External collaborators (the
Gemini model, the langchain text splitter, the PyPDF2 page reader, the file
system) are inputs to the embedded functions.
-/

/-! ## Python string primitives -/

/-- Characters removed by Python `str.strip()` (the ASCII whitespace set:
space, tab, newline, carriage return, vertical tab, form feed). -/
def isPyWs (c : Char) : Bool :=
  c = ' ' || c = '\t' || c = '\n' || c = '\r' || c = '\x0b' || c = '\x0c'

/-- Drop the longest suffix of `l` all of whose elements satisfy `p`. -/
def dropLastWhile (p : α → Bool) (l : List α) : List α :=
  (l.reverse.dropWhile p).reverse

/-- Underlying character action of Python `str.strip()`: remove leading and
trailing whitespace. -/
def stripChars (l : List Char) : List Char :=
  dropLastWhile isPyWs (l.dropWhile isPyWs)

/-- Python `s.strip()`. -/
def pyStrip (s : String) : String :=
  ⟨stripChars s.data⟩

/-- Python `s.split('\n')` on character lists: splitting on every newline,
keeping empty segments, never returning an empty list. -/
def splitNl : List Char → List (List Char)
  | [] => [[]]
  | c :: cs =>
    if c = '\n' then [] :: splitNl cs
    else
      match splitNl cs with
      | h :: t => (c :: h) :: t
      | [] => [[c]]

/-- Apply `f` to the last element of a list. -/
def modLast (f : α → α) : List α → List α
  | [] => []
  | [x] => [f x]
  | x :: y :: xs => x :: modLast f (y :: xs)

/-- Post-processing shared by the line pipeline of
`QAEngine.generate_questions`: keep the lines that are non-blank after
stripping, each stripped. -/
def stripLines (L : List (List Char)) : List (List Char) :=
  (L.filter (fun q => !(stripChars q).isEmpty)).map stripChars

/-- Python `s.endswith(suffix)` (case-sensitive, exact character match). -/
def pyEndsWith (s suffix : String) : Bool :=
  suffix.data.isSuffixOf s.data

/-! ## PDF text extraction (backend/app/pdf_processor.py) -/

/-- Outcome of `page.extract_text()` for one page of the PDF: either a result
(`None` is modelled as `none` and is replaced by the empty string by the
source's `or ""`), or a raised exception. -/
inductive PageExtract where
  | ok (txt : Option String)
  | err
deriving DecidableEq

/-- Whether the page's extraction succeeded (did not raise). -/
def PageExtract.isOk : PageExtract → Bool
  | .ok _ => true
  | .err => false

/-- Characters a single page contributes to the accumulator `text` in the
page loop of `PDFProcessor.extract_text`: a successful page appends its text
followed by a newline (`text += page_text + "\n"`); a page whose extraction
raises is caught and contributes nothing (not even the newline, since the
exception occurs before the `+=`). -/
def pageContribution : PageExtract → List Char
  | .ok txt => (txt.getD "").data ++ ['\n']
  | .err => []

/-- The page-processing part of `PDFProcessor.extract_text` (lines 52-75):
if the reader reports zero pages return "" at once, otherwise accumulate each
page's contribution in order and strip the final result. -/
def extractPagesText (pages : List PageExtract) : String :=
  if pages.length = 0 then ""
  else ⟨stripChars (pages.map pageContribution).flatten⟩

/-- Number of pages whose extraction succeeded. -/
def successCount (pages : List PageExtract) : Nat :=
  (pages.filter PageExtract.isOk).length

/-- Python exception values that can escape `PDFProcessor.extract_text`,
tagged by their Python class. -/
inductive PyError where
  | fileNotFound (msg : String)
  | permissionError (msg : String)
  | exception (msg : String)
deriving DecidableEq

/-- Python `str(e)` for the exceptions above. -/
def PyError.msg : PyError → String
  | .fileNotFound m => m
  | .permissionError m => m
  | .exception m => m

/-- State of the file system at the path handed to `extract_text`, plus the
per-page outcomes the PyPDF2 reader would produce there. -/
structure FileState where
  pathExists : Bool
  readable : Bool
  pages : List PageExtract
deriving DecidableEq

/-- Body of the outer `try` of `PDFProcessor.extract_text` (lines 40-75):
validate existence, validate readability, then read and process the pages. -/
def extract_text_try (path : String) (fs : FileState) : Except PyError String :=
  if !fs.pathExists then
    .error (.fileNotFound ("PDF file not found at " ++ path))
  else if !fs.readable then
    .error (.permissionError ("No read permission for PDF file at " ++ path))
  else
    .ok (extractPagesText fs.pages)

/-- `PDFProcessor.extract_text` (lines 40-82) with its handler chain: an
`except FileNotFoundError` clause re-raises that exception unchanged, and the
following `except Exception` clause catches every other exception — including
the `PermissionError` raised at line 49 — and wraps it as a fresh generic
`Exception("Error processing PDF: " + str(e))`. -/
def extract_text (path : String) (fs : FileState) : Except PyError String :=
  match extract_text_try path fs with
  | .ok s => .ok s
  | .error (.fileNotFound m) => .error (.fileNotFound m)
  | .error e => .error (.exception ("Error processing PDF: " ++ e.msg))

/-- Whether a result of `extract_text` is a `PermissionError` as seen by the
caller. -/
def isPermissionError : Except PyError String → Bool
  | .error (.permissionError _) => true
  | _ => false

/-! ## Chunker

Modelled from the spec: the Chunker component of section 4.2.  The concrete
splitter used by the source, langchain's `RecursiveCharacterTextSplitter`, is
third-party library code that is not part of this repository; the spec
describes the chunks as overlapping fixed-size windows — each chunk has
length at most `chunk_size` and consecutive chunks overlap by
`chunk_overlap` characters — which the sliding window below realises. -/

/-- Modelled from the spec: split `text` into windows of at most `size`
characters, consecutive windows overlapping by `overlap` characters (stride
`size - overlap`). -/
def chunkText (size overlap : Nat) (text : List Char) : List (List Char) :=
  if text.length = 0 then []
  else if text.length ≤ size ∨ size ≤ overlap then [text]
  else text.take size :: chunkText size overlap (text.drop (size - overlap))
termination_by text.length
decreasing_by
  simp only [List.length_drop]
  omega

/-- Concatenate chunks in order after removing the `overlap`-character
overlapping portion from the front of every chunk but the first. -/
def chunkJoin (overlap : Nat) : List (List Char) → List Char
  | [] => []
  | c :: cs => c ++ (cs.map (List.drop overlap)).flatten

/-! ## QA engine (backend/app/qa_engine.py) -/

/-- One call to the external Gemini model (`self.model.generate_content`):
given the prompt, it either returns the response text or raises. -/
def ModelCall := String → Except String String

/-- The f-string prompt of `QAEngine.get_answer` (lines 33-41). -/
def answerPrompt (text question : String) : String :=
  "Based on the following text, please answer the question. \n" ++
  "            If the answer is not in the text, say \"I cannot find the answer in the provided text.\"\n" ++
  "\n" ++
  "            Text:\n" ++
  "            " ++ text ++ "\n" ++
  "\n" ++
  "            Question: " ++ question ++ "\n" ++
  "\n" ++
  "            Please provide a clear and concise answer:"

/-- The f-string prompt of `QAEngine.generate_questions` (lines 64-75). -/
def suggestPrompt (text : String) : String :=
  "Analyze the following document text and generate 5-7 well-formatted, relevant questions that could be asked about this content.\n" ++
  "            \n" ++
  "            Focus on creating questions that:\n" ++
  "            1. Cover key information in the document\n" ++
  "            2. Are clear and specific\n" ++
  "            3. Range from simple factual questions to more complex analytical questions\n" ++
  "            4. Would be useful for someone trying to understand the document\n" ++
  "            \n" ++
  "            Document Text:\n" ++
  "            " ++ text ++ "\n" ++
  "            \n" ++
  "            Output only the list of questions, one per line, with no additional text or numbering."

/-- Model invocation and response handling of `QAEngine.get_answer`
(lines 44-51): strip the response text; any raised exception is wrapped as
`Exception("Error getting answer: " + str(e))`. -/
def callModelForAnswer (mdl : ModelCall) (prompt : String) : Except String String :=
  match mdl prompt with
  | .ok r => .ok (pyStrip r)
  | .error e => .error ("Error getting answer: " ++ e)

/-- `QAEngine.get_answer` (lines 22-51): if the text exceeds 30,000
characters, replace it by the first 5 chunks produced by the configured
splitter joined with a newline; build the prompt; call the model.  The
splitter `self.text_splitter.split_text` is passed in as `split`. -/
def get_answer (split : String → List String) (mdl : ModelCall)
    (text question : String) : Except String String :=
  let workingText :=
    if text.length > 30000 then String.intercalate "\n" ((split text).take 5)
    else text
  callModelForAnswer mdl (answerPrompt workingText question)

/-- Model invocation and response post-processing of
`QAEngine.generate_questions` (lines 77-88): strip the response, split it on
newlines, keep the non-blank lines stripped, return the first 7; any raised
exception is wrapped as `Exception("Error generating questions: " + str(e))`. -/
def callModelForQuestions (mdl : ModelCall) (prompt : String) :
    Except String (List String) :=
  match mdl prompt with
  | .error e => .error ("Error generating questions: " ++ e)
  | .ok rtext =>
    let questionsText := pyStrip rtext
    let questionsList :=
      ((splitNl questionsText.data).filter (fun q => !(stripChars q).isEmpty)).map
        (fun q => (⟨stripChars q⟩ : String))
    .ok (questionsList.take 7)

/-- `QAEngine.generate_questions` (lines 53-88), with the same 30,000
character chunk-selection policy as `get_answer`. -/
def generate_questions (split : String → List String) (mdl : ModelCall)
    (text : String) : Except String (List String) :=
  let workingText :=
    if text.length > 30000 then String.intercalate "\n" ((split text).take 5)
    else text
  callModelForQuestions mdl (suggestPrompt workingText)

/-- Stated from the claim: the model response split into lines, blank lines
discarded, each remaining line trimmed of surrounding whitespace, truncated
to at most the first 7 entries. -/
def suggestPostSpec (r : String) : List String :=
  (((splitNl r.data).filter (fun q => !(stripChars q).isEmpty)).map
      (fun q => (⟨stripChars q⟩ : String))).take 7

/-- Join character lists with a single separator character between
consecutive elements. -/
def joinSep (sep : Char) : List (List Char) → List Char
  | [] => []
  | [l] => l
  | l :: rest => l ++ sep :: joinSep sep rest

/-- Stated from the claim: per-page texts concatenated in page order with a
newline separator, leading and trailing whitespace trimmed from the final
result. -/
def pagesJoinedSpec (ps : List String) : String :=
  ⟨stripChars (joinSep '\n' (ps.map String.data))⟩

/-! ## HTTP layer state and endpoints (backend/app/main.py) -/

/-- A database row of the `documents` table (backend/app/models.py).  The
`DateTime` column is modelled as a natural-number clock value. -/
structure Document where
  id : Nat
  filename : String
  original_filename : String
  upload_date : Nat
  file_path : String
  text_content : String
deriving DecidableEq

/-- Server-side mutable state: the `documents` table rows in insertion
(rowid) order, the autoincrement counter, and the set of paths present in
the uploads directory. -/
structure ServerState where
  db : List Document
  nextId : Nat
  files : List String
deriving DecidableEq

/-- An `HTTPException` surfaced to the client. -/
structure HTTPErrorResp where
  status : Nat
  detail : String
deriving DecidableEq

/-- Models `datetime.now().strftime("%Y%m%d_%H%M%S")` as an abstract
rendering of the clock value. -/
def timestampStr (now : Nat) : String := toString now

/-- Result of the upload endpoint. -/
inductive UploadOutcome where
  | ok (message : String) (document_id : Nat)
  | httpError (status : Nat) (detail : String)
deriving DecidableEq

/-- The `upload_pdf` endpoint (main.py lines 68-157).  External
nondeterminism is passed in: the clock value `now`, whether the chunked
file write succeeds (`writeOk`), and the file-system state `fs` the PDF
processor will see.  The extension check happens before the file is opened,
so a rejected filename leaves the state untouched; a database failure after
the file was written rolls the record back but leaves the file on disk. -/
def upload_pdf (st : ServerState) (origName : String) (now : Nat)
    (writeOk : Bool) (fs : FileState) (commitOk : Bool) :
    UploadOutcome × ServerState :=
  if !(pyEndsWith origName ".pdf") then
    (.httpError 400 "Only PDF files are allowed", st)
  else
    let filename := timestampStr now ++ "_" ++ origName
    let path := "uploads/" ++ filename
    if !writeOk then
      (.httpError 500 "Error saving file", st)
    else
      let st1 := { st with files := st.files ++ [path] }
      match extract_text path fs with
      | .error e => (.httpError 500 (PyError.msg e), st1)
      | .ok extracted =>
        if !commitOk then (.httpError 500 "Database commit failed", st1)
        else
          let doc : Document :=
            { id := st1.nextId, filename := filename, original_filename := origName,
              upload_date := now, file_path := path, text_content := extracted }
          (.ok "File uploaded successfully" st1.nextId,
           { st1 with db := st1.db ++ [doc], nextId := st1.nextId + 1 })

/-- Result of the delete endpoint. -/
inductive DeleteOutcome where
  | ok (message : String) (id : Nat)
  | httpError (status : Nat) (detail : String)
deriving DecidableEq

/-- The `delete_document` endpoint (main.py lines 159-228): 404 when the id
is unknown; otherwise the stored file is unlinked inside its own
`try`/`except` whose failures (`unlinkThrows`) are logged and ignored, then
the row is deleted through the ORM; if the row is somehow still visible a
raw SQL `DELETE` fallback removes every row with that id.  A database
failure (`dbThrows`) rolls back and surfaces a 500. -/
def delete_document (st : ServerState) (docId : Nat)
    (unlinkThrows : Bool) (dbThrows : Bool) : DeleteOutcome × ServerState :=
  match st.db.find? (fun d => d.id == docId) with
  | none => (.httpError 404 "Document not found", st)
  | some document =>
    let files1 :=
      if st.files.contains document.file_path then
        if unlinkThrows then st.files else st.files.erase document.file_path
      else st.files
    let st1 := { st with files := files1 }
    if dbThrows then
      (.httpError 500 "Database error", st1)
    else
      let db1 := st1.db.eraseP (fun d => d.id == docId)
      let db2 :=
        match db1.find? (fun d => d.id == docId) with
        | some _ => db1.filter (fun d => !(d.id == docId))
        | none => db1
      (.ok "Document deleted successfully" docId, { st1 with db := db2 })

/-- One call to `QAEngine.get_answer` as the ask endpoint uses it: takes the
stored text and the question, returns the answer or raises. -/
def QAEngineCall := String → String → Except String String

/-- Exceptions that can be raised inside the `try` block of `ask_question`:
the `HTTPException` raised when the document is missing, or any exception
from the engine. -/
inductive AskExc where
  | http (status : Nat) (detail : String)
  | exc (msg : String)
deriving DecidableEq

/-- Python `str(e)` for the exceptions above; `str()` of a starlette
`HTTPException` renders as "status_code: detail". -/
def AskExc.str : AskExc → String
  | .http s d => toString s ++ ": " ++ d
  | .exc m => m

/-- Body of the `try` block of the `ask_question` endpoint (main.py lines
246-257): look the document up, raise a 404 `HTTPException` when absent,
otherwise run the engine on the stored text. -/
def ask_question_try (st : ServerState) (engine : QAEngineCall)
    (docId : Nat) (question : String) : Except AskExc String :=
  match st.db.find? (fun d => d.id == docId) with
  | none => .error (.http 404 "Document not found")
  | some document =>
    match engine document.text_content question with
    | .error m => .error (.exc m)
    | .ok a => .ok a

/-- The `ask_question` endpoint (main.py lines 230-263).  Its sole handler is
`except Exception`, which catches every exception raised in the `try` block —
including the 404 `HTTPException` itself, since `HTTPException` subclasses
`Exception` — and re-raises `HTTPException(status_code=500, detail=str(e))`. -/
def ask_question (st : ServerState) (engine : QAEngineCall)
    (docId : Nat) (question : String) : Except HTTPErrorResp String :=
  match ask_question_try st engine docId question with
  | .ok a => .ok a
  | .error e => .error ⟨500, AskExc.str e⟩

/-- The `list_documents` endpoint (main.py lines 265-281):
`db.query(models.Document).all()` carries no `order_by`, and database.py
configures a PostgreSQL engine, so SQL leaves the row order of this query
unspecified.  The endpoint is therefore embedded as the predicate of its
possible responses: `list_documents st returned` holds exactly when
`returned` is a row order the database is permitted to produce for the
stored table — any permutation of the stored rows. -/
def list_documents (st : ServerState) (returned : List Document) : Prop :=
  returned.Perm st.db

/-- The `get_document` endpoint (main.py lines 283-308). -/
def get_document (st : ServerState) (docId : Nat) : Except HTTPErrorResp Document :=
  match st.db.find? (fun d => d.id == docId) with
  | none => .error ⟨404, "Document not found"⟩
  | some d => .ok d

/-! ## Server histories -/

/-- One state-changing request together with its external nondeterminism. -/
inductive Event where
  | upload (origName : String) (now : Nat) (writeOk : Bool)
      (fs : FileState) (commitOk : Bool)
  | deleteDoc (docId : Nat) (unlinkThrows : Bool) (dbThrows : Bool)

/-- State transition of one request. -/
def stepState (st : ServerState) : Event → ServerState
  | .upload n now w fs c => (upload_pdf st n now w fs c).2
  | .deleteDoc i u d => (delete_document st i u d).2

/-- Run a request history. -/
def runEvents (st : ServerState) (evs : List Event) : ServerState :=
  evs.foldl stepState st

/-- The state after `models.Base.metadata.create_all`: empty table, empty
uploads directory, autoincrement at 1. -/
def initState : ServerState := { db := [], nextId := 1, files := [] }

/-- The upload clock values of a history are at least `t0` and appear in
nondecreasing order, as produced by the monotone wall clock
`datetime.now()`. -/
def timesMonoB (t0 : Nat) : List Event → Bool
  | [] => true
  | .upload _ now _ _ _ :: rest => t0 ≤ now && timesMonoB now rest
  | .deleteDoc _ _ _ :: rest => timesMonoB t0 rest

/-! ## Lemmas on the Python string primitives -/

theorem dropWhile_append_of_eq_nil {p : α → Bool} {l₁ : List α} (l₂ : List α)
    (h : l₁.dropWhile p = []) : (l₁ ++ l₂).dropWhile p = l₂.dropWhile p := by
  induction l₁ with
  | nil => rfl
  | cons a t ih =>
    by_cases hp : p a
    · rw [List.cons_append, List.dropWhile_cons_of_pos hp]
      exact ih (by rwa [List.dropWhile_cons_of_pos hp] at h)
    · rw [List.dropWhile_cons_of_neg hp] at h
      exact absurd h (by simp)

theorem dropWhile_append_of_ne_nil {p : α → Bool} {l₁ : List α} (l₂ : List α)
    (h : l₁.dropWhile p ≠ []) : (l₁ ++ l₂).dropWhile p = l₁.dropWhile p ++ l₂ := by
  induction l₁ with
  | nil => exact absurd rfl h
  | cons a t ih =>
    by_cases hp : p a
    · rw [List.cons_append, List.dropWhile_cons_of_pos hp,
        List.dropWhile_cons_of_pos hp]
      exact ih (by rwa [List.dropWhile_cons_of_pos hp] at h)
    · rw [List.cons_append, List.dropWhile_cons_of_neg hp,
        List.dropWhile_cons_of_neg hp, List.cons_append]

theorem dropLastWhile_concat_pos {p : α → Bool} {c : α} (l : List α) (h : p c = true) :
    dropLastWhile p (l ++ [c]) = dropLastWhile p l := by
  simp [dropLastWhile, List.reverse_append, List.dropWhile_cons, h]

theorem dropLastWhile_concat_neg {p : α → Bool} {c : α} (l : List α) (h : p c = false) :
    dropLastWhile p (l ++ [c]) = l ++ [c] := by
  simp [dropLastWhile, List.reverse_append, List.dropWhile_cons, h]

theorem stripChars_cons_ws {c : Char} (l : List Char) (h : isPyWs c = true) :
    stripChars (c :: l) = stripChars l := by
  simp [stripChars, List.dropWhile_cons, h]

theorem stripChars_concat_ws {c : Char} (l : List Char) (h : isPyWs c = true) :
    stripChars (l ++ [c]) = stripChars l := by
  unfold stripChars
  by_cases hnil : l.dropWhile isPyWs = []
  · rw [dropWhile_append_of_eq_nil _ hnil, hnil]
    simp [List.dropWhile_cons, h]
  · rw [dropWhile_append_of_ne_nil _ hnil, dropLastWhile_concat_pos _ h]

theorem splitNl_ne_nil (l : List Char) : splitNl l ≠ [] := by
  cases l with
  | nil => simp [splitNl]
  | cons c cs =>
    simp only [splitNl]
    by_cases h : c = '\n'
    · simp [h]
    · simp only [if_neg h]
      cases splitNl cs <;> simp

theorem splitNl_cons_shape {c : Char} (cs : List Char) (h : ¬ c = '\n') :
    ∀ h0 t0, splitNl cs = h0 :: t0 → splitNl (c :: cs) = (c :: h0) :: t0 := by
  intro h0 t0 he
  simp [splitNl, if_neg h, he]

theorem modLast_cons (f : α → α) (x : α) {L : List α} (h : L ≠ []) :
    modLast f (x :: L) = x :: modLast f L := by
  cases L with
  | nil => exact absurd rfl h
  | cons y ys => rfl

theorem splitNl_concat_nl (l : List Char) : splitNl (l ++ ['\n']) = splitNl l ++ [[]] := by
  induction l with
  | nil => rfl
  | cons c cs ih =>
    by_cases h : c = '\n'
    · subst h
      simp [splitNl, ih]
    · rw [List.cons_append]
      obtain ⟨h0, t0, he⟩ : ∃ h0 t0, splitNl cs = h0 :: t0 := by
        cases hcs : splitNl cs with
        | nil => exact absurd hcs (splitNl_ne_nil cs)
        | cons a b => exact ⟨a, b, rfl⟩
      rw [splitNl_cons_shape cs h h0 t0 he]
      have he' : splitNl (cs ++ ['\n']) = h0 :: (t0 ++ [[]]) := by
        rw [ih, he, List.cons_append]
      rw [splitNl_cons_shape (cs ++ ['\n']) h h0 (t0 ++ [[]]) he', List.cons_append]

theorem splitNl_cons_nl (cs : List Char) : splitNl ('\n' :: cs) = [] :: splitNl cs := by
  simp [splitNl]

theorem splitNl_concat_other {c : Char} (l : List Char) (h : ¬ c = '\n') :
    splitNl (l ++ [c]) = modLast (fun x => x ++ [c]) (splitNl l) := by
  induction l with
  | nil => simp [splitNl, if_neg h, modLast]
  | cons a t ih =>
    by_cases ha : a = '\n'
    · subst ha
      have hne' : splitNl t ≠ [] := splitNl_ne_nil _
      rw [List.cons_append, splitNl_cons_nl, splitNl_cons_nl, ih,
        modLast_cons _ _ hne']
    · obtain ⟨h0, t0, he⟩ : ∃ h0 t0, splitNl t = h0 :: t0 := by
        cases hcs : splitNl t with
        | nil => exact absurd hcs (splitNl_ne_nil t)
        | cons x b => exact ⟨x, b, rfl⟩
      rw [List.cons_append]
      cases t0 with
      | nil =>
        have he' : splitNl (t ++ [c]) = [h0 ++ [c]] := by
          rw [ih, he]; rfl
        rw [splitNl_cons_shape _ ha _ _ he', splitNl_cons_shape t ha h0 [] he]
        simp [modLast, List.cons_append]
      | cons y ys =>
        have he' : splitNl (t ++ [c]) = h0 :: modLast (fun x => x ++ [c]) (y :: ys) := by
          rw [ih, he]
          exact modLast_cons _ _ (by simp)
        rw [splitNl_cons_shape _ ha _ _ he', splitNl_cons_shape t ha h0 (y :: ys) he]
        rfl

theorem stripLines_cons (x : List Char) (R : List (List Char)) :
    stripLines (x :: R) =
      if (stripChars x).isEmpty then stripLines R else stripChars x :: stripLines R := by
  by_cases h : (stripChars x).isEmpty <;> simp [stripLines, List.filter_cons, h]

theorem stripLines_modLast {f : List Char → List Char}
    (hf : ∀ x, stripChars (f x) = stripChars x) :
    ∀ L : List (List Char), stripLines (modLast f L) = stripLines L := by
  intro L
  induction L with
  | nil => rfl
  | cons x R ih =>
    cases R with
    | nil => simp [modLast, stripLines_cons, hf x]
    | cons y ys =>
      rw [show modLast f (x :: y :: ys) = x :: modLast f (y :: ys) from rfl,
        stripLines_cons, stripLines_cons, ih]

theorem stripLines_splitNl_concat_ws {c : Char} (l : List Char) (h : isPyWs c = true) :
    stripLines (splitNl (l ++ [c])) = stripLines (splitNl l) := by
  by_cases hnl : c = '\n'
  · subst hnl
    rw [splitNl_concat_nl]
    simp [stripLines, List.filter_append, List.filter_cons, stripChars, dropLastWhile]
  · rw [splitNl_concat_other l hnl]
    exact stripLines_modLast (fun x => stripChars_concat_ws x h) _

theorem stripLines_splitNl_cons_ws {c : Char} (l : List Char) (h : isPyWs c = true) :
    stripLines (splitNl (c :: l)) = stripLines (splitNl l) := by
  by_cases hnl : c = '\n'
  · subst hnl
    have : splitNl ('\n' :: l) = [] :: splitNl l := by simp [splitNl]
    rw [this, stripLines_cons]
    simp [stripChars, dropLastWhile]
  · obtain ⟨h0, t0, he⟩ : ∃ h0 t0, splitNl l = h0 :: t0 := by
      cases hcs : splitNl l with
      | nil => exact absurd hcs (splitNl_ne_nil l)
      | cons a b => exact ⟨a, b, rfl⟩
    rw [splitNl_cons_shape l hnl h0 t0 he, he, stripLines_cons, stripLines_cons,
      stripChars_cons_ws _ h]

theorem stripLines_splitNl_dropWhile (l : List Char) :
    stripLines (splitNl (l.dropWhile isPyWs)) = stripLines (splitNl l) := by
  induction l with
  | nil => rfl
  | cons c t ih =>
    by_cases h : isPyWs c
    · rw [List.dropWhile_cons_of_pos h, ih, stripLines_splitNl_cons_ws t h]
    · rw [List.dropWhile_cons_of_neg h]

theorem stripLines_splitNl_dropLastWhile (l : List Char) :
    stripLines (splitNl (dropLastWhile isPyWs l)) = stripLines (splitNl l) := by
  induction l using List.reverseRecOn with
  | nil => rfl
  | append_singleton xs c ih =>
    by_cases h : isPyWs c
    · rw [dropLastWhile_concat_pos xs h, ih, stripLines_splitNl_concat_ws xs h]
    · rw [dropLastWhile_concat_neg xs (by simpa using h)]

theorem stripLines_splitNl_stripChars (l : List Char) :
    stripLines (splitNl (stripChars l)) = stripLines (splitNl l) := by
  simp only [stripChars]
  rw [stripLines_splitNl_dropLastWhile, stripLines_splitNl_dropWhile]

theorem flatten_map_concat_nl (L : List (List Char)) (h : L ≠ []) :
    (L.map (fun x => x ++ ['\n'])).flatten = joinSep '\n' L ++ ['\n'] := by
  induction L with
  | nil => exact absurd rfl h
  | cons x R ih =>
    cases R with
    | nil => simp [joinSep]
    | cons y t =>
      have := ih (by simp)
      simp only [List.map_cons, List.flatten_cons] at this ⊢
      rw [this, show joinSep '\n' (x :: y :: t) = x ++ '\n' :: joinSep '\n' (y :: t) from rfl]
      simp [List.append_assoc]

/-! ## Lemmas on the chunker -/

theorem chunkText_head (size overlap : Nat) (hso : overlap < size) (text : List Char)
    (h : text ≠ []) : ∃ tl, chunkText size overlap text = text.take size :: tl := by
  rw [chunkText]
  rw [if_neg (by simpa [List.length_eq_zero] using h)]
  by_cases hle : text.length ≤ size
  · rw [if_pos (Or.inl hle)]
    exact ⟨[], by rw [List.take_of_length_le hle]⟩
  · rw [if_neg (by push_neg; exact ⟨by omega, by omega⟩)]
    exact ⟨_, rfl⟩

theorem chunkText_chunk_length (size overlap : Nat) (hso : overlap < size) :
    ∀ (n : Nat) (text : List Char), text.length ≤ n →
      ∀ c ∈ chunkText size overlap text, c.length ≤ size := by
  intro n
  induction n with
  | zero =>
    intro text hlen c hc
    have hnil : text = [] := List.length_eq_zero.mp (Nat.le_zero.mp hlen)
    subst hnil
    simp [chunkText] at hc
  | succ n ih =>
    intro text hlen c hc
    rw [chunkText] at hc
    by_cases h0 : text.length = 0
    · rw [if_pos h0] at hc
      simp at hc
    · rw [if_neg h0] at hc
      by_cases hle : text.length ≤ size ∨ size ≤ overlap
      · rw [if_pos hle] at hc
        have hc' : c = text := by simpa using hc
        subst hc'
        rcases hle with hle | hle
        · exact hle
        · omega
      · rw [if_neg hle] at hc
        push_neg at hle
        rcases List.mem_cons.mp hc with rfl | hmem
        · exact List.length_take_le size text
        · exact ih (text.drop (size - overlap))
            (by rw [List.length_drop]; omega) c hmem

theorem chunkText_reconstruct_aux (size overlap : Nat) (hso : overlap < size) :
    ∀ (n : Nat) (text : List Char), text.length ≤ n →
      chunkJoin overlap (chunkText size overlap text) = text := by
  intro n
  induction n with
  | zero =>
    intro text hlen
    have hnil : text = [] := List.length_eq_zero.mp (Nat.le_zero.mp hlen)
    subst hnil
    simp [chunkText, chunkJoin]
  | succ n ih =>
    intro text hlen
    rw [chunkText]
    by_cases h0 : text.length = 0
    · rw [if_pos h0]
      have hnil : text = [] := List.length_eq_zero.mp h0
      subst hnil
      rfl
    · rw [if_neg h0]
      by_cases hle : text.length ≤ size ∨ size ≤ overlap
      · rw [if_pos hle]
        simp [chunkJoin]
      · rw [if_neg hle]
        push_neg at hle
        obtain ⟨hgt, _⟩ := hle
        have hgt' : size < text.length := by omega
        have hrlen : (text.drop (size - overlap)).length
            = text.length - (size - overlap) := List.length_drop _ _
        have hrle : (text.drop (size - overlap)).length ≤ n := by omega
        have hrne : text.drop (size - overlap) ≠ [] := by
          intro hh
          rw [hh] at hrlen
          simp at hrlen
          omega
        obtain ⟨tl, htl⟩ := chunkText_head size overlap hso _ hrne
        have hIH := ih _ hrle
        rw [htl] at hIH
        rw [htl]
        simp only [chunkJoin, List.map_cons, List.flatten_cons] at hIH ⊢
        have hsplit : ((text.drop (size - overlap)).take size).take overlap
            = (text.drop (size - overlap)).take overlap := by
          rw [List.take_take]
          congr 1
          omega
        have hx : (text.drop (size - overlap)).take overlap
              ++ ((text.drop (size - overlap)).take size).drop overlap
            = (text.drop (size - overlap)).take size := by
          conv_rhs =>
            rw [← List.take_append_drop overlap ((text.drop (size - overlap)).take size)]
          rw [hsplit]
        have htake : text.take size
            = text.take (size - overlap) ++ (text.drop (size - overlap)).take overlap := by
          have hk : (size - overlap) + overlap = size := by omega
          rw [← hk, List.take_add, hk]
        calc text.take size ++ (((text.drop (size - overlap)).take size).drop overlap
              ++ (tl.map (List.drop overlap)).flatten)
            = text.take (size - overlap) ++ (((text.drop (size - overlap)).take overlap
                ++ ((text.drop (size - overlap)).take size).drop overlap)
                ++ (tl.map (List.drop overlap)).flatten) := by
              rw [htake]
              simp [List.append_assoc]
          _ = text.take (size - overlap) ++ ((text.drop (size - overlap)).take size
                ++ (tl.map (List.drop overlap)).flatten) := by rw [hx]
          _ = text.take (size - overlap) ++ text.drop (size - overlap) := by rw [hIH]
          _ = text := List.take_append_drop _ _

/-! ## Lemmas on the server state -/

theorem delete_db_sublist (st : ServerState) (docId : Nat) (u b : Bool) :
    List.Sublist ((delete_document st docId u b).2).db st.db := by
  unfold delete_document
  cases hf : st.db.find? (fun x => x.id == docId) with
  | none => simp [hf]
  | some doc =>
    simp only [hf]
    cases b with
    | true => simp
    | false =>
      cases hf2 : (st.db.eraseP (fun x => x.id == docId)).find? (fun x => x.id == docId) with
      | none =>
        simp only [hf2, Bool.false_eq_true, if_false]
        exact List.eraseP_sublist _
      | some doc2 =>
        simp only [hf2, Bool.false_eq_true, if_false]
        exact (List.filter_sublist _).trans (List.eraseP_sublist _)

theorem upload_db_cases (st : ServerState) (n : String) (now : Nat) (w : Bool)
    (fs : FileState) (c : Bool) :
    ((upload_pdf st n now w fs c).2).db = st.db ∨
      ∃ doc : Document, doc.upload_date = now ∧
        ((upload_pdf st n now w fs c).2).db = st.db ++ [doc] := by
  unfold upload_pdf
  cases hp : pyEndsWith n ".pdf" with
  | false => left; simp [hp]
  | true =>
    cases w with
    | false => left; simp [hp]
    | true =>
      cases hext : extract_text ("uploads/" ++ (timestampStr now ++ "_" ++ n)) fs with
      | error e => left; simp [hp, hext]
      | ok extracted =>
        cases c with
        | false => left; simp [hp, hext]
        | true =>
          right
          refine ⟨⟨st.nextId, timestampStr now ++ "_" ++ n, n, now,
            "uploads/" ++ (timestampStr now ++ "_" ++ n), extracted⟩, rfl, ?_⟩
          simp [hp, hext]

theorem runEvents_cons (st : ServerState) (e : Event) (evs : List Event) :
    runEvents st (e :: evs) = runEvents (stepState st e) evs := rfl

theorem runEvents_db_pairwise (evs : List Event) :
    ∀ (t0 : Nat) (st : ServerState), timesMonoB t0 evs = true →
      (∀ d ∈ st.db, d.upload_date ≤ t0) →
      st.db.Pairwise (fun a b => a.upload_date ≤ b.upload_date) →
      (runEvents st evs).db.Pairwise (fun a b => a.upload_date ≤ b.upload_date) := by
  induction evs with
  | nil =>
    intro t0 st _ _ hp
    exact hp
  | cons e rest ih =>
    intro t0 st hmono hbound hp
    rw [runEvents_cons]
    cases e with
    | upload n now w fs c =>
      have hm : (t0 ≤ now) ∧ timesMonoB now rest = true := by
        simpa [timesMonoB, Bool.and_eq_true, decide_eq_true_eq] using hmono
      have hstep : stepState st (.upload n now w fs c) = (upload_pdf st n now w fs c).2 := rfl
      rcases upload_db_cases st n now w fs c with heq | ⟨doc, hdate, heq⟩
      · refine ih now _ hm.2 ?_ ?_
        · intro d hd
          rw [hstep, heq] at hd
          exact le_trans (hbound d hd) hm.1
        · rw [hstep, heq]
          exact hp
      · refine ih now _ hm.2 ?_ ?_
        · intro d hd
          rw [hstep, heq] at hd
          rcases List.mem_append.mp hd with hd | hd
          · exact le_trans (hbound d hd) hm.1
          · rw [List.mem_singleton.mp hd, hdate]
        · rw [hstep, heq]
          refine List.pairwise_append.mpr ⟨hp, List.pairwise_singleton _ _, ?_⟩
          intro a ha b hb
          rw [List.mem_singleton.mp hb, hdate]
          exact le_trans (hbound a ha) hm.1
    | deleteDoc i u b =>
      have hm : timesMonoB t0 rest = true := by simpa [timesMonoB] using hmono
      have hstep : stepState st (.deleteDoc i u b) = (delete_document st i u b).2 := rfl
      have hsub := delete_db_sublist st i u b
      refine ih t0 _ hm ?_ ?_
      · intro d hd
        rw [hstep] at hd
        exact hbound d (hsub.subset hd)
      · rw [hstep]
        exact List.Pairwise.sublist hsub hp

/-! ## Claims -/

/-- C1: the claim states that a `/ask/` request whose `document_id` is not
stored responds with HTTP 404 and that the missing-document case is never
surfaced under any other status code.  The code violates this: the 404
`HTTPException` raised inside the `try` block of `ask_question` is caught by
its own `except Exception` handler and re-raised as a 500 whose detail is the
string rendering of the original 404 exception.  This theorem evaluates the
endpoint at a failing input: a store with no documents and `document_id = 1`. -/
theorem C1_missing_document_gives_500 :
    ask_question initState (fun _ _ => Except.ok "answer") 1 "What is this?"
      = .error ⟨500, "404: Document not found"⟩ := rfl

/-- C3: for every readable PDF, `extract_text` returns the per-page texts
concatenated in page order with a newline separator, trimmed of surrounding
whitespace; a zero-page PDF yields the empty string, and pages "Hello" /
"World" yield exactly "Hello\nWorld". -/
theorem C3_pages_joined_with_newline (ps : List String) :
    extractPagesText (ps.map (fun s => PageExtract.ok (some s))) = pagesJoinedSpec ps ∧
    extractPagesText [] = "" ∧
    extractPagesText [PageExtract.ok (some "Hello"), PageExtract.ok (some "World")]
      = "Hello\nWorld" := by
  refine ⟨?_, rfl, by decide⟩
  cases ps with
  | nil => rfl
  | cons s rest =>
    unfold extractPagesText
    rw [if_neg (by simp)]
    have hmap : ((s :: rest).map (fun s => PageExtract.ok (some s))).map pageContribution
        = ((s :: rest).map String.data).map (fun x => x ++ ['\n']) := by
      rw [List.map_map, List.map_map]
      rfl
    rw [hmap, flatten_map_concat_nl _ (by simp), stripChars_concat_ws _ (by decide)]
    rfl

/-- C4: a PDF in which exactly one page's extraction throws still extracts
normally: the failing page contributes nothing, extraction of the remaining
pages continues (the result equals the extraction of the same PDF without the
failing page), and the number of successfully extracted pages is exactly
N - 1. -/
theorem C4_single_page_failure_tolerated (l1 l2 : List PageExtract)
    (h1 : ∀ p ∈ l1, p.isOk = true) (h2 : ∀ p ∈ l2, p.isOk = true) :
    extractPagesText (l1 ++ PageExtract.err :: l2) = extractPagesText (l1 ++ l2) ∧
    successCount (l1 ++ PageExtract.err :: l2) + 1
      = (l1 ++ PageExtract.err :: l2).length := by
  constructor
  · by_cases hnil : l1 ++ l2 = []
    · obtain ⟨ha, hb⟩ := List.append_eq_nil.mp hnil
      subst ha
      subst hb
      decide
    · unfold extractPagesText
      rw [if_neg (by simp), if_neg (by simpa [List.length_eq_zero] using hnil)]
      have hflat : ((l1 ++ PageExtract.err :: l2).map pageContribution).flatten
          = ((l1 ++ l2).map pageContribution).flatten := by
        simp [List.map_append, List.flatten_append, pageContribution]
      rw [hflat]
  · have hc1 : l1.filter PageExtract.isOk = l1 := List.filter_eq_self.mpr h1
    have hc2 : l2.filter PageExtract.isOk = l2 := List.filter_eq_self.mpr h2
    simp only [successCount, List.filter_append, List.filter_cons, PageExtract.isOk,
      Bool.false_eq_true, if_false, hc1, hc2, List.length_append, List.length_cons]
    omega

/-- Witness for C4 at a concrete 3-page PDF whose middle page throws. -/
theorem C4_witness :
    ((∀ p ∈ [PageExtract.ok (some "Hello")], p.isOk = true) ∧
      (∀ p ∈ [PageExtract.ok (some "World")], p.isOk = true)) ∧
    (extractPagesText
        ([PageExtract.ok (some "Hello")] ++ PageExtract.err :: [PageExtract.ok (some "World")])
      = extractPagesText ([PageExtract.ok (some "Hello")] ++ [PageExtract.ok (some "World")]) ∧
     successCount
        ([PageExtract.ok (some "Hello")] ++ PageExtract.err :: [PageExtract.ok (some "World")]) + 1
      = ([PageExtract.ok (some "Hello")] ++ PageExtract.err :: [PageExtract.ok (some "World")]).length) :=
  ⟨⟨by decide, by decide⟩,
    C4_single_page_failure_tolerated _ _ (by decide) (by decide)⟩

/-- C5 counterexample: at a path that exists but is not readable, the
`PermissionError` raised at pdf_processor.py line 49 is caught by the generic
`except Exception` handler at line 80 and surfaced as a plain `Exception`, so
the caller does not see a `PermissionError` and cannot distinguish this case
from a generic extraction error by exception type. -/
theorem C5_counterexample_permission_wrapped :
    (FileState.mk true false []).pathExists = true ∧
    (FileState.mk true false []).readable = false ∧
    isPermissionError (extract_text "uploads/doc.pdf" (FileState.mk true false [])) = false ∧
    extract_text "uploads/doc.pdf" (FileState.mk true false [])
      = .error (.exception
          "Error processing PDF: No read permission for PDF file at uploads/doc.pdf") :=
  ⟨rfl, rfl, rfl, rfl⟩

/-- C5 amended: `extract_text` fails with `FileNotFoundError` when the file
does not exist; when the file exists but is not readable the internally
raised `PermissionError` is wrapped and surfaced as a generic `Exception`
whose message is "Error processing PDF: No read permission for PDF file at
path" — distinguishable from not-found by exception type, but only by
message (not type) from other generic extraction errors. -/
theorem C5_extract_text_error_types (path : String) (fs : FileState) :
    (fs.pathExists = false →
      extract_text path fs = .error (.fileNotFound ("PDF file not found at " ++ path))) ∧
    (fs.pathExists = true → fs.readable = false →
      extract_text path fs = .error
        (.exception ("Error processing PDF: "
          ++ ("No read permission for PDF file at " ++ path)))) := by
  constructor
  · intro h
    simp [extract_text, extract_text_try, h]
  · intro h1 h2
    simp [extract_text, extract_text_try, h1, h2, PyError.msg]

/-- Witness for C5 at a missing file and at an unreadable file. -/
theorem C5_witness :
    ((FileState.mk false true []).pathExists = false ∧
      extract_text "a.pdf" (FileState.mk false true [])
        = .error (.fileNotFound ("PDF file not found at " ++ "a.pdf"))) ∧
    ((FileState.mk true false []).pathExists = true ∧
      (FileState.mk true false []).readable = false ∧
      extract_text "a.pdf" (FileState.mk true false [])
        = .error (.exception ("Error processing PDF: "
            ++ ("No read permission for PDF file at " ++ "a.pdf")))) :=
  ⟨⟨rfl, (C5_extract_text_error_types "a.pdf" (FileState.mk false true [])).1 rfl⟩,
   ⟨rfl, rfl, (C5_extract_text_error_types "a.pdf" (FileState.mk true false [])).2 rfl rfl⟩⟩

/-- C2: both the answer operation and the suggest operation replace a text
longer than 30,000 characters by the first 5 chunks of the configured
splitter joined with a newline before building the prompt, and pass a text
of at most 30,000 characters through unchanged with no chunk selection. -/
theorem C2_chunk_selection_policy (split : String → List String) (mdl : ModelCall)
    (text question : String) :
    (text.length ≤ 30000 →
      get_answer split mdl text question
        = callModelForAnswer mdl (answerPrompt text question) ∧
      generate_questions split mdl text
        = callModelForQuestions mdl (suggestPrompt text)) ∧
    (30000 < text.length →
      get_answer split mdl text question
        = callModelForAnswer mdl
            (answerPrompt (String.intercalate "\n" ((split text).take 5)) question) ∧
      generate_questions split mdl text
        = callModelForQuestions mdl
            (suggestPrompt (String.intercalate "\n" ((split text).take 5)))) := by
  constructor
  · intro h
    have h' : ¬ (text.length > 30000) := by omega
    exact ⟨by simp [get_answer, h'], by simp [generate_questions, h']⟩
  · intro h
    exact ⟨by simp [get_answer, h], by simp [generate_questions, h]⟩

/-- Witness for C2 at a 3-character text and at a 30,001-character text. -/
theorem C2_witness :
    (("abc" : String).length ≤ 30000 ∧
      get_answer (fun s => [s]) (fun _ => Except.ok " A ") "abc" "Q"
        = callModelForAnswer (fun _ => Except.ok " A ") (answerPrompt "abc" "Q")) ∧
    (30000 < (⟨List.replicate 30001 'a'⟩ : String).length ∧
      get_answer (fun s => [s]) (fun _ => Except.ok " A ")
          (⟨List.replicate 30001 'a'⟩ : String) "Q"
        = callModelForAnswer (fun _ => Except.ok " A ")
            (answerPrompt
              (String.intercalate "\n"
                ([(⟨List.replicate 30001 'a'⟩ : String)].take 5)) "Q")) := by
  have h1 : ("abc" : String).length ≤ 30000 := by decide
  have h2 : 30000 < (⟨List.replicate 30001 'a'⟩ : String).length := by
    have hlen : (⟨List.replicate 30001 'a'⟩ : String).length
        = (List.replicate 30001 'a').length := rfl
    rw [hlen, List.length_replicate]
    omega
  exact ⟨⟨h1, ((C2_chunk_selection_policy (fun s => [s]) (fun _ => Except.ok " A ")
      "abc" "Q").1 h1).1⟩,
    ⟨h2, ((C2_chunk_selection_policy (fun s => [s]) (fun _ => Except.ok " A ")
      (⟨List.replicate 30001 'a'⟩ : String) "Q").2 h2).1⟩⟩

/-- C6: for every model response string, the suggest operation returns the
response split into lines with blank lines discarded and each remaining line
trimmed, truncated to at most the first 7 entries; a 10-line response yields
exactly the first 7 lines, and a response with fewer than 7 non-blank lines
is returned as-is. -/
theorem C6_suggest_post_processing (split : String → List String) (text r : String) :
    generate_questions split (fun _ => Except.ok r) text = .ok (suggestPostSpec r) ∧
    (suggestPostSpec r).length ≤ 7 ∧
    generate_questions split
        (fun _ => Except.ok "q1\nq2\nq3\nq4\nq5\nq6\nq7\nq8\nq9\nq10") text
      = .ok ["q1", "q2", "q3", "q4", "q5", "q6", "q7"] ∧
    generate_questions split (fun _ => Except.ok "a\nb\nc") text
      = .ok ["a", "b", "c"] := by
  have key : ∀ d : List Char,
      ((splitNl d).filter (fun q => !(stripChars q).isEmpty)).map
          (fun q => (⟨stripChars q⟩ : String))
        = (stripLines (splitNl d)).map (fun l => (⟨l⟩ : String)) := by
    intro d
    simp only [stripLines, List.map_map]
    rfl
  refine ⟨?_, List.length_take_le _ _, rfl, rfl⟩
  simp only [generate_questions, callModelForQuestions]
  have hd : (pyStrip r).data = stripChars r.data := rfl
  rw [hd, key (stripChars r.data), stripLines_splitNl_stripChars r.data, ← key r.data]
  rfl

/-- C9: the chunker configured with chunk_size 1000 and chunk_overlap 200
produces chunks each of length at most 1000, and concatenating the chunks in
order with the overlapping portions removed reconstructs the original text
exactly. -/
theorem C9_chunk_bound_and_reconstruction (text : List Char) :
    (∀ c ∈ chunkText 1000 200 text, c.length ≤ 1000) ∧
    chunkJoin 200 (chunkText 1000 200 text) = text :=
  ⟨chunkText_chunk_length 1000 200 (by omega) text.length text le_rfl,
   chunkText_reconstruct_aux 1000 200 (by omega) text.length text le_rfl⟩

/-- C10: the upload endpoint's PDF-extension check is case-sensitive: any
filename that does not end with the exact lowercase suffix ".pdf" is
rejected with HTTP 400 and the server state — uploaded files and document
records alike — is left untouched. -/
theorem C10_extension_check_case_sensitive (st : ServerState) (name : String)
    (now : Nat) (w : Bool) (fs : FileState) (c : Bool)
    (h : pyEndsWith name ".pdf" = false) :
    upload_pdf st name now w fs c
      = (.httpError 400 "Only PDF files are allowed", st) := by
  unfold upload_pdf
  rw [h]
  rfl

/-- Witness for C10 at the uppercase filename "report.PDF". -/
theorem C10_witness :
    pyEndsWith "report.PDF" ".pdf" = false ∧
    upload_pdf initState "report.PDF" 7 true (FileState.mk true true []) true
      = (.httpError 400 "Only PDF files are allowed", initState) :=
  ⟨by decide,
   C10_extension_check_case_sensitive initState "report.PDF" 7 true
     (FileState.mk true true []) true (by decide)⟩

/-- C7: the claim states the document listing returns all stored documents
as an ordered sequence sorted by upload time.  The code runs
`db.query(models.Document).all()` with no `order_by`, so SQL leaves the row
order unspecified — even though models.py creates the index
`ix_documents_upload_date` with the comment "for efficient sorting", which
this query never uses; the `ORDER BY` is missing.  This theorem evaluates
the endpoint at a failing input: a store holding two documents uploaded at
times 1 and 2; returning the rows in reversed order is a permitted
execution of the query (a permutation of the stored rows — so the
"returns all stored documents" half of the claim does hold there), yet that
response is not sorted by upload time. -/
theorem C7_unordered_query_can_return_unsorted :
    list_documents
      (ServerState.mk [Document.mk 1 "a" "a.pdf" 1 "uploads/a" "ta",
                       Document.mk 2 "b" "b.pdf" 2 "uploads/b" "tb"] 3 [])
      [Document.mk 2 "b" "b.pdf" 2 "uploads/b" "tb",
       Document.mk 1 "a" "a.pdf" 1 "uploads/a" "ta"] ∧
    ¬ ([Document.mk 2 "b" "b.pdf" 2 "uploads/b" "tb",
        Document.mk 1 "a" "a.pdf" 1 "uploads/a" "ta"].Pairwise
          (fun a b => a.upload_date ≤ b.upload_date)) := by
  constructor
  · show List.Perm _ _
    decide
  · decide

/-- C8: deleting an existing document succeeds and removes the database
record regardless of the storage-file outcome — the file may already be
absent (the state's file list is arbitrary) or the unlink may throw
(`u = true`); afterwards the document is no longer retrievable by get. -/
theorem C8_delete_record_despite_file_failure (st : ServerState) (docId : Nat)
    (document : Document) (u : Bool)
    (h : st.db.find? (fun d => d.id == docId) = some document) :
    (delete_document st docId u false).1 = .ok "Document deleted successfully" docId ∧
    ((delete_document st docId u false).2).db.find? (fun d => d.id == docId) = none ∧
    get_document ((delete_document st docId u false).2) docId
      = .error ⟨404, "Document not found"⟩ := by
  have hnone : ((delete_document st docId u false).2).db.find?
      (fun d => d.id == docId) = none := by
    unfold delete_document
    simp only [h]
    cases hf2 : (st.db.eraseP (fun d => d.id == docId)).find? (fun d => d.id == docId) with
    | none =>
      simp only [hf2, Bool.false_eq_true, if_false]
    | some doc2 =>
      simp only [hf2, Bool.false_eq_true, if_false]
      apply List.find?_eq_none.mpr
      intro x hx
      have hmem := (List.mem_filter.mp hx).2
      simp only [Bool.not_eq_eq_eq_not, Bool.not_true] at hmem
      simp [hmem]
  refine ⟨?_, hnone, ?_⟩
  · unfold delete_document
    simp only [h]
    cases hf2 : (st.db.eraseP (fun d => d.id == docId)).find? (fun d => d.id == docId) with
    | none => simp [hf2]
    | some doc2 => simp [hf2]
  · unfold get_document
    rw [hnone]

/-- Witness for C8: a store holding one document whose file is absent from
storage and whose unlink would throw. -/
theorem C8_witness :
    ((ServerState.mk [Document.mk 5 "f.pdf" "o.pdf" 3 "uploads/f.pdf" "text"] 6 []).db.find?
        (fun d => d.id == 5)
      = some (Document.mk 5 "f.pdf" "o.pdf" 3 "uploads/f.pdf" "text")) ∧
    ((delete_document
        (ServerState.mk [Document.mk 5 "f.pdf" "o.pdf" 3 "uploads/f.pdf" "text"] 6 [])
        5 true false).1 = .ok "Document deleted successfully" 5 ∧
     ((delete_document
        (ServerState.mk [Document.mk 5 "f.pdf" "o.pdf" 3 "uploads/f.pdf" "text"] 6 [])
        5 true false).2).db.find? (fun d => d.id == 5) = none ∧
     get_document ((delete_document
        (ServerState.mk [Document.mk 5 "f.pdf" "o.pdf" 3 "uploads/f.pdf" "text"] 6 [])
        5 true false).2) 5 = .error ⟨404, "Document not found"⟩) :=
  ⟨by decide,
   C8_delete_record_despite_file_failure
     (ServerState.mk [Document.mk 5 "f.pdf" "o.pdf" 3 "uploads/f.pdf" "text"] 6 [])
     5 (Document.mk 5 "f.pdf" "o.pdf" 3 "uploads/f.pdf" "text") true (by decide)⟩
